import Mathlib

/-!
# Verification of the gotstate FSM runtime core

A shallow embedding of the finite-state-machine runtime described by the
repository's design document.  The repository's crate root (`src/lib.rs`)
only declares the modules `model`, `validator`, `resource`, `core`,
`concurrency`, …; the module bodies are not present under `src/`, so every
definition below is modelled from the specification's own description of the
data model (§3), the validator (§4.1), the resource manager (§4.2) and the
dispatch algorithm (§4.3).
-/

namespace Gotstate

/-- Modelled from the spec: guards are "pure predicates over current context
and event payload" (§3, Glossary).  The scenarios in §8 use numeric
comparisons over an integer payload (`x>0`, `x<=0`), so the guard language is
embedded as those two comparison shapes against a constant.  This keeps guard
satisfiability, overlap and mutual exclusion decidable, which the validator's
ambiguity check (§4.1(c)) requires. -/
inductive Guard where
  | gt (c : Int)
  | le (c : Int)
deriving DecidableEq

/-- Modelled from the spec: evaluation of a guard against the event payload. -/
def Guard.eval : Guard → Int → Bool
  | .gt c, x => decide (c < x)
  | .le c, x => decide (x ≤ c)

/-- Evaluation of an optional guard: a transition with no guard is always
eligible (§4.3 step 2). -/
def guardHolds : Option Guard → Int → Bool
  | none, _ => true
  | some g, x => g.eval x

/-- Modelled from the spec: a State is "an identifier (unique within a Model)
plus an ordered list of resource bindings" (§3).  Identifiers are numbers. -/
structure State where
  id : Nat
  bindings : List Nat
deriving DecidableEq

/-- Modelled from the spec: a Transition is "a triple (source state, event,
target state) plus an optional guard and an optional action" (§3).  The
action is an identifier into the host's table of behavior callbacks. -/
structure Transition where
  source : Nat
  event : Nat
  guard : Option Guard
  action : Option Nat
  target : Nat
deriving DecidableEq

/-- Modelled from the spec: a Model is "the closed set of States, Events,
Transitions, plus a designated initial state" (§3); transitions are kept in
declaration order, which resolves guard ambiguity (§9). -/
structure Model where
  states : List State
  events : List Nat
  transitions : List Transition
  initial : Nat
deriving DecidableEq

/-- Modelled from the spec: a MachineInstance is the "runtime binding of a
validated Model to a current state [and] a resource table (which resources
are currently held)" (§3).  The Model itself is passed alongside, since it is
shared read-only. -/
structure Inst where
  current : Nat
  table : List Nat
deriving DecidableEq

/-- Modelled from the spec: the outcome of one dispatch attempt (§3). -/
inductive TransitionOutcome where
  | Applied (target : Nat)
  | Rejected
  | GuardBlocked
  | ResourceAcquisitionFailed
  | ActionFailed
deriving DecidableEq

/-- Modelled from the spec: the host environment the engine calls into —
whether acquiring a resource succeeds, whether a behavior callback (action)
succeeds on a payload, and whether releasing a resource succeeds (release
failures are recorded but non-fatal, §4.2). -/
structure Env where
  acquireOk : Nat → Bool
  actionOk : Nat → Int → Bool
  releaseOk : Nat → Bool

/-- An entry of the resource manager's acquisition/release log (§8,
serialization invariant: "observable via a global acquisition/release
log"). -/
inductive ResOp where
  | acquire (r : Nat)
  | release (r : Nat)
deriving DecidableEq

/-- The ordered resource bindings declared for state `s` in model `m`
(empty when `s` is not a declared state). -/
def bindingsOf (m : Model) (s : Nat) : List Nat :=
  match m.states.find? (fun st => st.id == s) with
  | some st => st.bindings
  | none => []

/-- Modelled from the spec (§4.3 step 1): all transitions whose source is the
current state and whose event is the dispatched event, in declaration
order. -/
def candidates (m : Model) (cur ev : Nat) : List Transition :=
  m.transitions.filter (fun t => t.source == cur && t.event == ev)

/-- Whether the candidate transition is eligible for the given payload
(§4.3 step 2): its guard evaluates true, or it has no guard. -/
def guardPasses (p : Int) (t : Transition) : Bool :=
  guardHolds t.guard p

/-- Modelled from the spec (§4.3 step 2): the first candidate, in the Model's
declared order, whose guard evaluates true (or that has no guard). -/
def selectTransition (m : Model) (cur ev : Nat) (p : Int) : Option Transition :=
  (candidates m cur ev).find? (guardPasses p)

/-- Modelled from the spec (§4.2 `exit`): walk the outgoing state's bindings
(the caller passes them already reversed, giving reverse binding order);
a binding also present in the incoming state's bindings `tgtB` is kept —
"the manager diffs the outgoing state's bindings against the incoming
state's bindings and only releases/acquires the symmetric difference" —
otherwise it is released.  A failed release is recorded (second component)
but does not stop the walk.  Returns the new table, the identifiers whose
release failed, and the release log. -/
def exitGo (env : Env) (tgtB : List Nat) :
    List Nat → List Nat → List Nat × List Nat × List ResOp
  | [], table => (table, [], [])
  | r :: rs, table =>
    if r ∈ tgtB then
      exitGo env tgtB rs table
    else
      let res := exitGo env tgtB rs (table.erase r)
      (res.1, (if env.releaseOk r then res.2.1 else r :: res.2.1),
        ResOp.release r :: res.2.2)

/-- Modelled from the spec (§4.2): `exit(state)` releases resources bound to
the state in reverse binding order, keeping those shared with the incoming
target state. -/
def exitState (env : Env) (curB tgtB table : List Nat) :
    List Nat × List Nat × List ResOp :=
  exitGo env tgtB curB.reverse table

/-- Modelled from the spec (§4.2 `enter`): walk the incoming state's bindings
in binding order; a binding already held in the table is not re-acquired
(symmetric-difference rule); otherwise it is acquired and appended.  On a
failed acquisition, every resource acquired for this entry (`acq`, most
recent first) is released in reverse acquisition order and the restored
table is returned as the error value together with the log. -/
def enterGo (env : Env) :
    List Nat → List Nat → List Nat →
    Except (List Nat × List ResOp) (List Nat × List ResOp)
  | [], table, _ => .ok (table, [])
  | r :: rs, table, acq =>
    if r ∈ table then
      enterGo env rs table acq
    else if env.acquireOk r then
      match enterGo env rs (table ++ [r]) (r :: acq) with
      | .ok res => .ok (res.1, ResOp.acquire r :: res.2)
      | .error res => .error (res.1, ResOp.acquire r :: res.2)
    else
      .error (acq.foldl (fun t a => t.erase a) table, acq.map ResOp.release)

/-- Modelled from the spec (§4.2): `enter(state)` acquires each resource bound
to the state in binding order; on failure midway, all resources already
acquired for this entry are released in reverse order before returning the
error (no partial-acquisition leak). -/
def enterState (env : Env) (tgtB table : List Nat) :
    Except (List Nat × List ResOp) (List Nat × List ResOp) :=
  enterGo env tgtB table []

/-- Whether the selected transition's action (behavior callback) succeeds; a
transition without an action trivially succeeds (§4.3 step 4). -/
def actionPasses (env : Env) (t : Transition) (p : Int) : Bool :=
  match t.action with
  | none => true
  | some a => env.actionOk a p

/-- The full result of one dispatch: the instance afterwards, the outcome,
the recorded (non-fatal) release failures, and the resource-operation log. -/
structure DispatchResult where
  inst : Inst
  outcome : TransitionOutcome
  releaseErrors : List Nat
  ops : List ResOp
deriving DecidableEq

/-- Modelled from the spec (§4.3): the dispatch algorithm.
1–2: select the first matching candidate, else `Rejected`;
3: `exit(current)` diffed against the target — release failures are recorded
   but non-fatal, so this step never aborts;
4: run the action; on failure the engine restores the pre-exit table
   (re-entering the original state's resources) and returns `ActionFailed`;
5: `enter(target)`; on failure the entry is rolled back, the original
   state's resources are restored, and `ResourceAcquisitionFailed` is
   returned with the current state unchanged;
6: commit — current state becomes the target, `Applied(target)`. -/
def dispatch (env : Env) (m : Model) (inst : Inst) (evId : Nat) (p : Int) :
    DispatchResult :=
  match selectTransition m inst.current evId p with
  | none => ⟨inst, .Rejected, [], []⟩
  | some t =>
    let curB := bindingsOf m inst.current
    let tgtB := bindingsOf m t.target
    let ex := exitState env curB tgtB inst.table
    if actionPasses env t p then
      match enterState env tgtB ex.1 with
      | .ok res =>
        ⟨⟨t.target, res.1⟩, .Applied t.target, ex.2.1, ex.2.2 ++ res.2⟩
      | .error res =>
        ⟨inst, .ResourceAcquisitionFailed, ex.2.1, ex.2.2 ++ res.2⟩
    else
      ⟨inst, .ActionFailed, ex.2.1, ex.2.2⟩

/-- Modelled from the spec (§4.1): structural validation errors. -/
inductive ValidationError where
  | UnknownState (s : Nat)
  | UnknownInitial
  | AmbiguousTransition (source event : Nat)
deriving DecidableEq

/-- Modelled from the spec (§4.1 (d),(e)): non-fatal validation warnings. -/
inductive ValidationWarning where
  | UnreachableState (s : Nat)
  | NoOpTransition (source event : Nat)
deriving DecidableEq

/-- Modelled from the spec (§4.1): the opaque token produced by successful
validation; it carries the (unmutated) Model and the warning set. -/
structure ValidatedModel where
  model : Model
  warnings : List ValidationWarning
deriving DecidableEq

/-- Whether two optional guards can be simultaneously satisfied: a transition
without a guard competes with everything ("transitions competing on the same
source+event without a guard, or with overlapping/always-true guards, are an
`AmbiguousTransition` error", §4.1(c)). -/
def guardsAmbiguous : Option Guard → Option Guard → Bool
  | none, _ => true
  | _, none => true
  | some (.gt _), some (.gt _) => true
  | some (.le _), some (.le _) => true
  | some (.gt a), some (.le b) => decide (a < b)
  | some (.le b), some (.gt a) => decide (a < b)

/-- Modelled from the spec (§4.1(c)): scan the declaration-ordered transition
list for the first pair competing on the same source+event with ambiguous
guards. -/
def findAmbiguity : List Transition → Option (Nat × Nat)
  | [] => none
  | t :: rest =>
    match rest.find?
        (fun u => u.source == t.source && u.event == t.event &&
          guardsAmbiguous t.guard u.guard) with
    | some _ => some (t.source, t.event)
    | none => findAmbiguity rest

/-- The declared state identifiers of a model. -/
def stateIds (m : Model) : List Nat :=
  m.states.map State.id

/-- One round of forward reachability: add every transition target whose
source is already reached. -/
def reachStep (ts : List Transition) (reach : List Nat) : List Nat :=
  ts.foldl (fun acc t =>
    if t.source ∈ acc && t.target ∉ acc then acc ++ [t.target] else acc) reach

/-- Modelled from the spec (§4.1(d)): the states reachable from the initial
state via some path, computed by iterating `reachStep` as many times as
there are declared states. -/
def reachableFrom (m : Model) : List Nat :=
  (List.range m.states.length).foldl (fun acc _ => reachStep m.transitions acc)
    [m.initial]

/-- Modelled from the spec (§4.1): `validate(Model)`.  Checks in order:
(a) every transition's source/target exist in the state set;
(b) the initial state exists;
(c) no ambiguous (source, event) pair;
(d) unreachable states are reported as warnings (non-fatal);
(e) a self-loop with no action is flagged `NoOpTransition` (warning).
Validation is pure; success yields a `ValidatedModel` carrying the Model
unchanged and the warning set. -/
def validate (m : Model) : Except ValidationError ValidatedModel :=
  match m.transitions.find?
      (fun t => !(decide (t.source ∈ stateIds m) &&
        decide (t.target ∈ stateIds m))) with
  | some t =>
    .error (.UnknownState
      (if t.source ∈ stateIds m then t.target else t.source))
  | none =>
    if m.initial ∈ stateIds m then
      match findAmbiguity m.transitions with
      | some se => .error (.AmbiguousTransition se.1 se.2)
      | none =>
        let reach := reachableFrom m
        let unreachable := (stateIds m).filter (fun s => s ∉ reach)
        let noops := m.transitions.filter
          (fun t => t.target == t.source && t.action == none)
        .ok ⟨m, unreachable.map ValidationWarning.UnreachableState ++
          noops.map (fun t => ValidationWarning.NoOpTransition t.source t.event)⟩
    else
      .error .UnknownInitial

/-- The resource/state consistency invariant (§8): the held-resource table is
duplicate-free and its members are exactly the resource bindings of the
instance's current state. -/
def consistent (m : Model) (inst : Inst) : Prop :=
  inst.table.Nodup ∧ ∀ r, r ∈ inst.table ↔ r ∈ bindingsOf m inst.current

/-- Two transitions are compatible (not ambiguous) when, if they compete on
the same source and event, no payload satisfies both guards — the semantic
counterpart of §4.1(c)'s "mutually exclusive guards". -/
def compatible (t u : Transition) : Prop :=
  t.source = u.source → t.event = u.event →
    ¬∃ x : Int, guardHolds t.guard x = true ∧ guardHolds u.guard x = true

/-- The operation log of an entry attempt, whether it succeeded or was rolled
back. -/
def entryOps :
    Except (List Nat × List ResOp) (List Nat × List ResOp) → List ResOp
  | .ok res => res.2
  | .error res => res.2

/-! ## Helper lemmas -/

/-- A successful `find?` returns the first element satisfying the
predicate. -/
theorem find?_first {α : Type} (p : α → Bool) :
    ∀ (l : List α) (x : α), l.find? p = some x →
      p x = true ∧ ∃ l1 l2, l = l1 ++ x :: l2 ∧ ∀ u ∈ l1, p u = false
  | [], x, h => by simp [List.find?] at h
  | a :: l, x, h => by
    by_cases hpa : p a = true
    · rw [List.find?_cons_of_pos _ hpa] at h
      cases h
      exact ⟨hpa, [], l, rfl, by simp⟩
    · rw [List.find?_cons_of_neg _ (by simpa using hpa)] at h
      obtain ⟨hx, l1, l2, hl, hl1⟩ := find?_first p l x h
      refine ⟨hx, a :: l1, l2, by rw [hl]; rfl, ?_⟩
      intro u hu
      rcases List.mem_cons.1 hu with rfl | hu
      · simpa using hpa
      · exact hl1 u hu

/-- The syntactic ambiguity check agrees with semantic overlap: two optional
guards are flagged ambiguous exactly when some payload satisfies both. -/
theorem guardsAmbiguous_iff :
    ∀ g1 g2 : Option Guard,
      guardsAmbiguous g1 g2 = true ↔
        ∃ x : Int, guardHolds g1 x = true ∧ guardHolds g2 x = true
  | none, none => by
    simp only [guardsAmbiguous, guardHolds, true_iff, true_and, and_self]
    exact ⟨0, trivial⟩
  | none, some (.gt c) => by
    simp only [guardsAmbiguous, guardHolds, Guard.eval, true_iff, true_and,
      decide_eq_true_eq]
    exact ⟨c + 1, by omega⟩
  | none, some (.le c) => by
    simp only [guardsAmbiguous, guardHolds, Guard.eval, true_iff, true_and,
      decide_eq_true_eq]
    exact ⟨c, by omega⟩
  | some (.gt c), none => by
    simp only [guardsAmbiguous, guardHolds, Guard.eval, true_iff, and_true,
      decide_eq_true_eq]
    exact ⟨c + 1, by omega⟩
  | some (.le c), none => by
    simp only [guardsAmbiguous, guardHolds, Guard.eval, true_iff, and_true,
      decide_eq_true_eq]
    exact ⟨c, by omega⟩
  | some (.gt a), some (.gt b) => by
    simp only [guardsAmbiguous, guardHolds, Guard.eval, true_iff,
      decide_eq_true_eq]
    exact ⟨max a b + 1, by omega, by omega⟩
  | some (.le a), some (.le b) => by
    simp only [guardsAmbiguous, guardHolds, Guard.eval, true_iff,
      decide_eq_true_eq]
    exact ⟨min a b, by omega, by omega⟩
  | some (.gt a), some (.le b) => by
    simp only [guardsAmbiguous, guardHolds, Guard.eval, decide_eq_true_eq]
    constructor
    · intro h; exact ⟨a + 1, by omega, by omega⟩
    · rintro ⟨x, h1, h2⟩; omega
  | some (.le b), some (.gt a) => by
    simp only [guardsAmbiguous, guardHolds, Guard.eval, decide_eq_true_eq]
    constructor
    · intro h; exact ⟨a + 1, by omega, by omega⟩
    · rintro ⟨x, h1, h2⟩; omega

/-- Which resources survive `exitGo`: a held resource is kept exactly when it
is not among the processed outgoing bindings or is shared with the incoming
state's bindings. -/
theorem exitGo_fst_mem (env : Env) (tgtB : List Nat) :
    ∀ (l tb : List Nat), tb.Nodup → ∀ x,
      (x ∈ (exitGo env tgtB l tb).1 ↔ x ∈ tb ∧ (x ∉ l ∨ x ∈ tgtB))
  | [], tb, hnd, x => by simp [exitGo]
  | r :: rs, tb, hnd, x => by
    by_cases hrt : r ∈ tgtB
    · rw [exitGo, if_pos hrt, exitGo_fst_mem env tgtB rs tb hnd x]
      by_cases hxr : x = r
      · subst hxr; simp [hrt]
      · simp [List.mem_cons, hxr]
    · rw [exitGo, if_neg hrt]
      simp only
      rw [exitGo_fst_mem env tgtB rs (tb.erase r) (hnd.erase r) x,
        hnd.mem_erase_iff]
      by_cases hxr : x = r
      · subst hxr; simp [hrt]
      · simp [List.mem_cons, hxr]

/-- `exitGo` preserves freedom from duplicates of the resource table. -/
theorem exitGo_fst_nodup (env : Env) (tgtB : List Nat) :
    ∀ (l tb : List Nat), tb.Nodup → (exitGo env tgtB l tb).1.Nodup
  | [], tb, hnd => by simpa [exitGo] using hnd
  | r :: rs, tb, hnd => by
    by_cases hrt : r ∈ tgtB
    · rw [exitGo, if_pos hrt]
      exact exitGo_fst_nodup env tgtB rs tb hnd
    · rw [exitGo, if_neg hrt]
      exact exitGo_fst_nodup env tgtB rs (tb.erase r) (hnd.erase r)

/-- A resource shared with the incoming state is never removed by
`exitGo`. -/
theorem exitGo_keeps_shared (env : Env) (tgtB : List Nat) (x : Nat) :
    ∀ (l tb : List Nat), x ∈ tb → x ∈ tgtB → x ∈ (exitGo env tgtB l tb).1
  | [], tb, hx, hxt => by simpa [exitGo] using hx
  | r :: rs, tb, hx, hxt => by
    by_cases hrt : r ∈ tgtB
    · rw [exitGo, if_pos hrt]
      exact exitGo_keeps_shared env tgtB x rs tb hx hxt
    · rw [exitGo, if_neg hrt]
      refine exitGo_keeps_shared env tgtB x rs (tb.erase r) ?_ hxt
      exact (List.mem_erase_of_ne (fun hxr : x = r => hrt (hxr ▸ hxt))).2 hx

/-- Every operation logged by `exitGo` is a release of a processed outgoing
binding that is not shared with the incoming state: the exit path never
acquires, and never releases a shared binding. -/
theorem exitGo_ops (env : Env) (tgtB : List Nat) :
    ∀ (l tb : List Nat), ∀ op ∈ (exitGo env tgtB l tb).2.2,
      ∃ x, op = ResOp.release x ∧ x ∈ l ∧ x ∉ tgtB
  | [], tb, op, hop => by simp [exitGo] at hop
  | r :: rs, tb, op, hop => by
    by_cases hrt : r ∈ tgtB
    · rw [exitGo, if_pos hrt] at hop
      obtain ⟨x, hx, hxl, hxt⟩ := exitGo_ops env tgtB rs tb op hop
      exact ⟨x, hx, List.mem_cons_of_mem _ hxl, hxt⟩
    · rw [exitGo, if_neg hrt] at hop
      simp only [List.mem_cons] at hop
      rcases hop with rfl | hop
      · exact ⟨r, rfl, List.mem_cons_self _ _, hrt⟩
      · obtain ⟨x, hx, hxl, hxt⟩ := exitGo_ops env tgtB rs (tb.erase r) op hop
        exact ⟨x, hx, List.mem_cons_of_mem _ hxl, hxt⟩

/-- The table and the operation log produced by `exitGo` do not depend on the
environment: only the recorded release-failure list consults
`env.releaseOk`. -/
theorem exitGo_env_indep (env env' : Env) (tgtB : List Nat) :
    ∀ (l tb : List Nat),
      (exitGo env tgtB l tb).1 = (exitGo env' tgtB l tb).1 ∧
      (exitGo env tgtB l tb).2.2 = (exitGo env' tgtB l tb).2.2
  | [], tb => by simp [exitGo]
  | r :: rs, tb => by
    by_cases hrt : r ∈ tgtB
    · rw [exitGo, exitGo, if_pos hrt, if_pos hrt]
      exact exitGo_env_indep env env' tgtB rs tb
    · rw [exitGo, exitGo, if_neg hrt, if_neg hrt]
      obtain ⟨h1, h2⟩ := exitGo_env_indep env env' tgtB rs (tb.erase r)
      exact ⟨h1, by simp [h2]⟩

/-- On success, the table produced by `enterGo` is duplicate-free and holds
exactly the previously held resources plus the requested bindings. -/
theorem enterGo_ok_mem (env : Env) :
    ∀ (bs tb acq t2 ops : _), tb.Nodup →
      enterGo env bs tb acq = .ok (t2, ops) →
      t2.Nodup ∧ ∀ x, (x ∈ t2 ↔ x ∈ tb ∨ x ∈ bs)
  | [], tb, acq, t2, ops, hnd, h => by
    rw [enterGo] at h
    cases h
    exact ⟨hnd, fun x => by simp⟩
  | r :: rs, tb, acq, t2, ops, hnd, h => by
    rw [enterGo] at h
    by_cases hr : r ∈ tb
    · rw [if_pos hr] at h
      obtain ⟨h1, h2⟩ := enterGo_ok_mem env rs tb acq t2 ops hnd h
      refine ⟨h1, fun x => ?_⟩
      rw [h2 x]
      by_cases hxr : x = r
      · subst hxr; simp [hr]
      · simp [List.mem_cons, hxr]
    · rw [if_neg hr] at h
      by_cases hacq : env.acquireOk r = true
      · rw [if_pos hacq] at h
        cases heq : enterGo env rs (tb ++ [r]) (r :: acq) with
        | ok res =>
          rw [heq] at h
          cases h
          have hnd' : (tb ++ [r]).Nodup := by
            simp [List.nodup_append, hnd, hr]
          obtain ⟨h1, h2⟩ :=
            enterGo_ok_mem env rs (tb ++ [r]) (r :: acq) res.1 res.2 hnd' heq
          refine ⟨h1, fun x => ?_⟩
          rw [h2 x]
          simp [List.mem_append, List.mem_cons, or_assoc]
        | error res => rw [heq] at h; cases h
      · rw [if_neg hacq] at h
        cases h

/-- A failed `enterGo` hands back the table with every resource acquired for
this entry erased again — the rollback of the partial acquisition. -/
theorem enterGo_error_fst (env : Env) :
    ∀ (bs tb acq t' ops : _), enterGo env bs tb acq = .error (t', ops) →
      t' = acq.foldl (fun t a => t.erase a) tb
  | [], tb, acq, t', ops, h => by rw [enterGo] at h; cases h
  | r :: rs, tb, acq, t', ops, h => by
    rw [enterGo] at h
    by_cases hr : r ∈ tb
    · rw [if_pos hr] at h
      exact enterGo_error_fst env rs tb acq t' ops h
    · rw [if_neg hr] at h
      by_cases hacq : env.acquireOk r = true
      · rw [if_pos hacq] at h
        cases heq : enterGo env rs (tb ++ [r]) (r :: acq) with
        | ok res => rw [heq] at h; cases h
        | error res =>
          rw [heq] at h
          cases h
          have := enterGo_error_fst env rs (tb ++ [r]) (r :: acq)
            res.1 res.2 heq
          rw [this]
          simp only [List.foldl_cons]
          rw [List.erase_append_right _ hr, List.erase_cons_head,
            List.append_nil]
      · rw [if_neg hacq] at h
        cases h
        rfl

/-- The log of a failed `enterGo` consists of the acquisitions made for this
entry followed by their releases in reverse acquisition order. -/
theorem enterGo_error_ops (env : Env) :
    ∀ (bs tb acq t' : List Nat) (ops : List ResOp),
      enterGo env bs tb acq = .error (t', ops) →
      ∃ as : List Nat, ops = as.map ResOp.acquire ++
        (as.reverse ++ acq).map ResOp.release
  | [], tb, acq, t', ops, h => by rw [enterGo] at h; cases h
  | r :: rs, tb, acq, t', ops, h => by
    rw [enterGo] at h
    by_cases hr : r ∈ tb
    · rw [if_pos hr] at h
      exact enterGo_error_ops env rs tb acq t' ops h
    · rw [if_neg hr] at h
      by_cases hacq : env.acquireOk r = true
      · rw [if_pos hacq] at h
        cases heq : enterGo env rs (tb ++ [r]) (r :: acq) with
        | ok res => rw [heq] at h; cases h
        | error res =>
          rw [heq] at h
          cases h
          obtain ⟨as, has⟩ := enterGo_error_ops env rs (tb ++ [r]) (r :: acq)
            res.1 res.2 heq
          refine ⟨r :: as, ?_⟩
          simp [has]
      · rw [if_neg hacq] at h
        cases h
        exact ⟨[], rfl⟩

/-- A resource already held before the entry began is neither acquired nor
released by `enterGo`, on the success path and on the rollback path alike. -/
theorem enterGo_shared_ops (env : Env) (x : Nat) :
    ∀ (bs tb acq : _), x ∈ tb → x ∉ acq →
      ResOp.acquire x ∉ entryOps (enterGo env bs tb acq) ∧
      ResOp.release x ∉ entryOps (enterGo env bs tb acq)
  | [], tb, acq, hx, hacq => by simp [enterGo, entryOps]
  | r :: rs, tb, acq, hx, hacq => by
    rw [enterGo]
    by_cases hr : r ∈ tb
    · rw [if_pos hr]
      exact enterGo_shared_ops env x rs tb acq hx hacq
    · rw [if_neg hr]
      have hxr : x ≠ r := fun hxr => hr (hxr ▸ hx)
      by_cases hok : env.acquireOk r = true
      · rw [if_pos hok]
        have hx' : x ∈ tb ++ [r] := List.mem_append_left _ hx
        have hacq' : x ∉ r :: acq := by
          simp [List.mem_cons, hxr, hacq]
        obtain ⟨h1, h2⟩ :=
          enterGo_shared_ops env x rs (tb ++ [r]) (r :: acq) hx' hacq'
        cases heq : enterGo env rs (tb ++ [r]) (r :: acq) with
        | ok res =>
          rw [heq, entryOps] at h1 h2
          simp only [entryOps, List.mem_cons]
          exact ⟨by simp [hxr, h1], by simp [h2]⟩
        | error res =>
          rw [heq, entryOps] at h1 h2
          simp only [entryOps, List.mem_cons]
          exact ⟨by simp [hxr, h1], by simp [h2]⟩
      · rw [if_neg hok]
        simp only [entryOps, List.mem_map]
        constructor
        · rintro ⟨a, _, h⟩; cases h
        · rintro ⟨a, ha, h⟩
          cases h
          exact hacq ha

/-- `enterGo` consults the environment only through `acquireOk`. -/
theorem enterGo_env_indep (env env' : Env)
    (hacq : env.acquireOk = env'.acquireOk) :
    ∀ (bs tb acq : _), enterGo env bs tb acq = enterGo env' bs tb acq
  | [], tb, acq => by rw [enterGo, enterGo]
  | r :: rs, tb, acq => by
    rw [enterGo, enterGo, hacq,
      enterGo_env_indep env env' hacq rs tb acq,
      enterGo_env_indep env env' hacq rs (tb ++ [r]) (r :: acq)]

/-- On success, `enterGo` appends exactly the bindings not already held, in
binding order. -/
theorem enterGo_ok_shape (env : Env) :
    ∀ (bs tb acq t2 ops : _), bs.Nodup →
      enterGo env bs tb acq = .ok (t2, ops) →
      t2 = tb ++ bs.filter (fun r => decide (r ∉ tb))
  | [], tb, acq, t2, ops, hnd, h => by
    rw [enterGo] at h
    cases h
    simp
  | r :: rs, tb, acq, t2, ops, hnd, h => by
    rw [enterGo] at h
    by_cases hr : r ∈ tb
    · rw [if_pos hr] at h
      rw [enterGo_ok_shape env rs tb acq t2 ops hnd.of_cons h]
      simp [List.filter_cons, hr]
    · rw [if_neg hr] at h
      by_cases hok : env.acquireOk r = true
      · rw [if_pos hok] at h
        cases heq : enterGo env rs (tb ++ [r]) (r :: acq) with
        | ok res =>
          rw [heq] at h
          cases h
          rw [enterGo_ok_shape env rs (tb ++ [r]) (r :: acq)
            res.1 res.2 hnd.of_cons heq]
          have hrrs : r ∉ rs := (List.nodup_cons.1 hnd).1
          have hfe : rs.filter (fun s => decide (s ∉ tb ++ [r])) =
              rs.filter (fun s => decide (s ∉ tb)) := by
            apply List.filter_congr
            intro s hs
            have hsr : s ≠ r := fun hsr => hrrs (hsr ▸ hs)
            simp [List.mem_append, hsr]
          rw [hfe, List.filter_cons, List.append_assoc]
          simp [hr]
        | error res => rw [heq] at h; cases h
      · rw [if_neg hok] at h
        cases h

/-- The validator's ambiguity scan finds nothing exactly when every ordered
pair of declared transitions is compatible (mutually exclusive on any shared
source+event). -/
theorem findAmbiguity_eq_none_iff :
    ∀ ts : List Transition, findAmbiguity ts = none ↔ ts.Pairwise compatible
  | [] => by simp [findAmbiguity]
  | t :: rest => by
    rw [findAmbiguity, List.pairwise_cons]
    cases heq : rest.find? (fun u => u.source == t.source &&
        u.event == t.event && guardsAmbiguous t.guard u.guard) with
    | some u =>
      simp only
      constructor
      · intro h; cases h
      · rintro ⟨hcomp, -⟩
        have hu := List.mem_of_find?_eq_some heq
        have hp := List.find?_some heq
        simp only [Bool.and_eq_true, beq_iff_eq] at hp
        obtain ⟨⟨hs, he⟩, hg⟩ := hp
        obtain ⟨x, hx1, hx2⟩ := (guardsAmbiguous_iff t.guard u.guard).1 hg
        exact absurd ⟨x, hx1, hx2⟩ (hcomp u hu hs.symm he.symm)
    | none =>
      simp only
      rw [findAmbiguity_eq_none_iff rest]
      have hall : ∀ u ∈ rest, compatible t u := by
        intro u hu hs he hex
        have hnp := List.find?_eq_none.1 heq u hu
        simp only [Bool.and_eq_true, beq_iff_eq, not_and] at hnp
        exact hnp ⟨hs.symm, he.symm⟩
          ((guardsAmbiguous_iff t.guard u.guard).2 hex)
      constructor
      · intro h; exact ⟨hall, h⟩
      · rintro ⟨-, h⟩; exact h

/-! ## Concrete machines from the spec's scenarios (§8) -/

/-- Scenario 1: states Idle (0), Running (1), Stopped (2), no resource
bindings; transitions Idle--start(10)-->Running, Running--stop(11)-->Stopped. -/
def sc1 : Model :=
  ⟨[⟨0, []⟩, ⟨1, []⟩, ⟨2, []⟩], [10, 11],
   [⟨0, 10, none, none, 1⟩, ⟨1, 11, none, none, 2⟩], 0⟩

/-- Scenario 2: as scenario 1 but Running (1) is bound to resource 3 and
Stopped (2) to resource 9, whose acquisition always fails in `env2`. -/
def sc2 : Model :=
  ⟨[⟨0, []⟩, ⟨1, [3]⟩, ⟨2, [9]⟩], [10, 11],
   [⟨0, 10, none, none, 1⟩, ⟨1, 11, none, none, 2⟩], 0⟩

/-- Scenario 3: two transitions from Idle (0) on event go (20), the first
guarded by `x > 0`, the second by `x ≤ 0`. -/
def sc3 : Model :=
  ⟨[⟨0, []⟩, ⟨1, []⟩, ⟨2, []⟩], [20],
   [⟨0, 20, some (.gt 0), none, 1⟩, ⟨0, 20, some (.le 0), none, 2⟩], 0⟩

/-- A model whose states A (0) and B (1) share bound resource 7, with B also
bound to 8; transitions A→B on event 30 and B→A on event 31 (the
no-double-release scenario of §8). -/
def scShared : Model :=
  ⟨[⟨0, [7]⟩, ⟨1, [7, 8]⟩], [30, 31],
   [⟨0, 30, none, none, 1⟩, ⟨1, 31, none, none, 0⟩], 0⟩

/-- A model with two guardless transitions competing on source 0 and event 5
— ambiguous per §4.1(c). -/
def scAmbiguous : Model :=
  ⟨[⟨0, []⟩, ⟨1, []⟩], [5],
   [⟨0, 5, none, none, 1⟩, ⟨0, 5, none, none, 1⟩], 0⟩

/-- An environment in which every acquisition, action and release succeeds. -/
def envAll : Env := ⟨fun _ => true, fun _ _ => true, fun _ => true⟩

/-- An environment in which acquiring resource 9 always fails (scenario 2). -/
def env9 : Env := ⟨fun r => !(r == 9), fun _ _ => true, fun _ => true⟩

/-- An environment in which acquiring resource 2 always fails. -/
def env2f : Env := ⟨fun r => !(r == 2), fun _ _ => true, fun _ => true⟩

/-- An environment in which every action (behavior callback) fails. -/
def envActFail : Env := ⟨fun _ => true, fun _ _ => false, fun _ => true⟩

/-- A model whose single transition from state 0 (bound to resource 4) to
state 1 carries behavior callback 1. -/
def scAct : Model :=
  ⟨[⟨0, [4]⟩, ⟨1, []⟩], [10], [⟨0, 10, none, some 1, 1⟩], 0⟩

/-! ## Claim theorems -/

/-- Claim C1: dispatch — including every failure path — preserves the resource/state
consistency invariant: between dispatches the set of held resources equals
exactly the resource bindings declared for the instance's current state. -/
theorem resource_state_consistency (env : Env) (m : Model) (inst : Inst)
    (evId : Nat) (p : Int) (h : consistent m inst) :
    consistent m (dispatch env m inst evId p).inst := by
  cases hsel : selectTransition m inst.current evId p with
  | none => simpa [dispatch, hsel] using h
  | some t =>
    cases hact : actionPasses env t p with
    | false => simpa [dispatch, hsel, hact] using h
    | true =>
      cases hent : enterState env (bindingsOf m t.target)
          (exitState env (bindingsOf m inst.current) (bindingsOf m t.target)
            inst.table).1 with
      | error res => simpa [dispatch, hsel, hact, hent] using h
      | ok res =>
        have hgoal : (dispatch env m inst evId p).inst = ⟨t.target, res.1⟩ := by
          simp [dispatch, hsel, hact, hent]
        rw [hgoal]
        have hexnd : (exitState env (bindingsOf m inst.current)
            (bindingsOf m t.target) inst.table).1.Nodup :=
          exitGo_fst_nodup env _ _ _ h.1
        obtain ⟨hnd2, hmem2⟩ := enterGo_ok_mem env (bindingsOf m t.target) _ []
          res.1 res.2 hexnd hent
        refine ⟨hnd2, fun r => ?_⟩
        rw [hmem2 r]
        have hex := exitGo_fst_mem env (bindingsOf m t.target)
          (bindingsOf m inst.current).reverse inst.table h.1 r
        rw [List.mem_reverse] at hex
        rw [exitState, hex]
        have htbl := h.2 r
        constructor
        · rintro (⟨hin, h1 | h2⟩ | h3)
          · exact absurd (htbl.1 hin) h1
          · exact h2
          · exact h3
        · intro hr
          exact Or.inr hr

/-- Witness for claim C1: scenario 2's instance (Running with resource 3 held)
satisfies the invariant, and still does after a dispatch whose target entry
fails. -/
theorem resource_state_consistency_witness :
    consistent sc2 ⟨1, [3]⟩ ∧
      consistent sc2 (dispatch env9 sc2 ⟨1, [3]⟩ 11 0).inst :=
  ⟨⟨by decide, fun _ => Iff.rfl⟩,
   resource_state_consistency env9 sc2 ⟨1, [3]⟩ 11 0
     ⟨by decide, fun _ => Iff.rfl⟩⟩

/-- Claim C2: a dispatch with no matching candidate returns `Rejected` with the
instance unchanged; a dispatch whose selected transition's action and target
entry succeed (exit never aborts, §4.2) returns `Applied(target)` and moves
the current state to the target. -/
theorem dispatch_outcome_spec (env : Env) (m : Model) (inst : Inst)
    (evId : Nat) (p : Int) :
    (selectTransition m inst.current evId p = none →
      dispatch env m inst evId p = ⟨inst, .Rejected, [], []⟩) ∧
    (∀ t res, selectTransition m inst.current evId p = some t →
      actionPasses env t p = true →
      enterState env (bindingsOf m t.target)
        (exitState env (bindingsOf m inst.current) (bindingsOf m t.target)
          inst.table).1 = .ok res →
      (dispatch env m inst evId p).outcome = .Applied t.target ∧
      (dispatch env m inst evId p).inst.current = t.target) := by
  constructor
  · intro hsel
    simp [dispatch, hsel]
  · intro t res hsel hact hent
    constructor <;> simp [dispatch, hsel, hact, hent]

/-- Witness for claim C2: scenario 1 — dispatching start from Idle yields
`Applied(Running)`; dispatching start from Stopped yields `Rejected` and
leaves the instance unchanged. -/
theorem dispatch_outcome_spec_witness :
    ((dispatch envAll sc1 ⟨0, []⟩ 10 0).outcome = .Applied 1 ∧
      (dispatch envAll sc1 ⟨0, []⟩ 10 0).inst.current = 1) ∧
    dispatch envAll sc1 ⟨2, []⟩ 10 0 = ⟨⟨2, []⟩, .Rejected, [], []⟩ :=
  ⟨(dispatch_outcome_spec envAll sc1 ⟨0, []⟩ 10 0).2
      ⟨0, 10, none, none, 1⟩ ([], []) rfl rfl rfl,
   (dispatch_outcome_spec envAll sc1 ⟨2, []⟩ 10 0).1 rfl⟩

/-- Claim C4: when the selected transition's action fails, dispatch returns
`ActionFailed`, the instance (current state and table) is restored, and the
original state's resources are still held. -/
theorem dispatch_action_failure (env : Env) (m : Model) (inst : Inst)
    (evId : Nat) (p : Int) (t : Transition)
    (hsel : selectTransition m inst.current evId p = some t)
    (hact : actionPasses env t p = false)
    (hcons : ∀ r, r ∈ inst.table ↔ r ∈ bindingsOf m inst.current) :
    (dispatch env m inst evId p).outcome = .ActionFailed ∧
    (dispatch env m inst evId p).inst = inst ∧
    ∀ r ∈ bindingsOf m inst.current,
      r ∈ (dispatch env m inst evId p).inst.table := by
  have hinst : (dispatch env m inst evId p).inst = inst := by
    simp [dispatch, hsel, hact]
  refine ⟨?_, hinst, fun r hr => ?_⟩
  · simp [dispatch, hsel, hact]
  · rw [hinst]
    exact (hcons r).2 hr

/-- Witness for claim C4: with a failing behavior callback, dispatch on `scAct` returns
`ActionFailed` and the original state's resource 4 is still held. -/
theorem dispatch_action_failure_witness :
    (dispatch envActFail scAct ⟨0, [4]⟩ 10 0).outcome = .ActionFailed ∧
    (dispatch envActFail scAct ⟨0, [4]⟩ 10 0).inst = ⟨0, [4]⟩ ∧
    ∀ r ∈ bindingsOf scAct 0,
      r ∈ (dispatch envActFail scAct ⟨0, [4]⟩ 10 0).inst.table :=
  dispatch_action_failure envActFail scAct ⟨0, [4]⟩ 10 0
    ⟨0, 10, none, some 1, 1⟩ rfl rfl (fun _ => Iff.rfl)

/-- Claim C5: resource failures behave as §4.3 specifies.  First, exit-step
failures are release failures, which are non-fatal: the resulting instance
and outcome do not depend on release success at all, so the transition
proceeds regardless.  Second, a failed acquisition when entering the target
returns `ResourceAcquisitionFailed` with the current state unchanged and the
original state's resources still held. -/
theorem dispatch_resource_failure (env : Env) (m : Model) (inst : Inst)
    (evId : Nat) (p : Int) :
    (∀ f : Nat → Bool,
      (dispatch ⟨env.acquireOk, env.actionOk, f⟩ m inst evId p).inst =
        (dispatch env m inst evId p).inst ∧
      (dispatch ⟨env.acquireOk, env.actionOk, f⟩ m inst evId p).outcome =
        (dispatch env m inst evId p).outcome) ∧
    (∀ t res, selectTransition m inst.current evId p = some t →
      actionPasses env t p = true →
      enterState env (bindingsOf m t.target)
        (exitState env (bindingsOf m inst.current) (bindingsOf m t.target)
          inst.table).1 = .error res →
      (∀ r, r ∈ inst.table ↔ r ∈ bindingsOf m inst.current) →
      (dispatch env m inst evId p).outcome = .ResourceAcquisitionFailed ∧
      (dispatch env m inst evId p).inst = inst ∧
      ∀ r ∈ bindingsOf m inst.current,
        r ∈ (dispatch env m inst evId p).inst.table) := by
  constructor
  · intro f
    cases hsel : selectTransition m inst.current evId p with
    | none => constructor <;> simp [dispatch, hsel]
    | some t =>
      have hex : (exitState (⟨env.acquireOk, env.actionOk, f⟩ : Env)
          (bindingsOf m inst.current) (bindingsOf m t.target) inst.table).1 =
          (exitState env (bindingsOf m inst.current) (bindingsOf m t.target)
            inst.table).1 :=
        (exitGo_env_indep _ env (bindingsOf m t.target)
          (bindingsOf m inst.current).reverse inst.table).1
      have hen : enterState (⟨env.acquireOk, env.actionOk, f⟩ : Env)
          (bindingsOf m t.target)
          (exitState env (bindingsOf m inst.current) (bindingsOf m t.target)
            inst.table).1 =
          enterState env (bindingsOf m t.target)
            (exitState env (bindingsOf m inst.current) (bindingsOf m t.target)
              inst.table).1 :=
        enterGo_env_indep ⟨env.acquireOk, env.actionOk, f⟩ env rfl
          (bindingsOf m t.target)
          (exitState env (bindingsOf m inst.current) (bindingsOf m t.target)
            inst.table).1 []
      cases hact : actionPasses env t p with
      | false =>
        have hact' : actionPasses (⟨env.acquireOk, env.actionOk, f⟩ : Env)
            t p = false := hact
        constructor <;> simp [dispatch, hsel, hact, hact']
      | true =>
        have hact' : actionPasses (⟨env.acquireOk, env.actionOk, f⟩ : Env)
            t p = true := hact
        cases hent : enterState env (bindingsOf m t.target)
            (exitState env (bindingsOf m inst.current) (bindingsOf m t.target)
              inst.table).1 with
        | ok res =>
          have hent' := hex ▸ (hen.trans hent)
          constructor <;> simp [dispatch, hsel, hact, hact', hent, hent']
        | error res =>
          have hent' := hex ▸ (hen.trans hent)
          constructor <;> simp [dispatch, hsel, hact, hact', hent, hent']
  · intro t res hsel hact hent hcons
    have hinst : (dispatch env m inst evId p).inst = inst := by
      simp [dispatch, hsel, hact, hent]
    refine ⟨?_, hinst, fun r hr => ?_⟩
    · simp [dispatch, hsel, hact, hent]
    · rw [hinst]
      exact (hcons r).2 hr

/-- Witness for claim C5: scenario 2 — `stop` from Running, whose target's resource 9
never acquires, yields `ResourceAcquisitionFailed`, leaves the state at
Running with resource 3 held; and flipping all release results changes
neither instance nor outcome. -/
theorem dispatch_resource_failure_witness :
    ((dispatch ⟨env9.acquireOk, env9.actionOk, fun _ => false⟩ sc2
        ⟨1, [3]⟩ 11 0).inst = (dispatch env9 sc2 ⟨1, [3]⟩ 11 0).inst ∧
      (dispatch ⟨env9.acquireOk, env9.actionOk, fun _ => false⟩ sc2
        ⟨1, [3]⟩ 11 0).outcome = (dispatch env9 sc2 ⟨1, [3]⟩ 11 0).outcome) ∧
    ((dispatch env9 sc2 ⟨1, [3]⟩ 11 0).outcome = .ResourceAcquisitionFailed ∧
      (dispatch env9 sc2 ⟨1, [3]⟩ 11 0).inst = ⟨1, [3]⟩ ∧
      ∀ r ∈ bindingsOf sc2 1, r ∈ (dispatch env9 sc2 ⟨1, [3]⟩ 11 0).inst.table) :=
  ⟨(dispatch_resource_failure env9 sc2 ⟨1, [3]⟩ 11 0).1 (fun _ => false),
   (dispatch_resource_failure env9 sc2 ⟨1, [3]⟩ 11 0).2
     ⟨1, 11, none, none, 2⟩ ([], []) rfl rfl rfl (fun _ => Iff.rfl)⟩

/-- Claim C6: `enter` acquires the not-yet-held bindings in binding order, and a
failed entry releases everything acquired for it in reverse acquisition
order, returning the resource table exactly as it was before the call. -/
theorem resource_enter_contract (env : Env) (bs tb : List Nat)
    (hnd : bs.Nodup) :
    (∀ t' ops, enterState env bs tb = .error (t', ops) →
      t' = tb ∧ ∃ as : List Nat,
        ops = as.map ResOp.acquire ++ as.reverse.map ResOp.release) ∧
    (∀ t2 ops, enterState env bs tb = .ok (t2, ops) →
      t2 = tb ++ bs.filter (fun r => decide (r ∉ tb))) := by
  constructor
  · intro t' ops h
    refine ⟨enterGo_error_fst env bs tb [] t' ops h, ?_⟩
    obtain ⟨as, has⟩ := enterGo_error_ops env bs tb [] t' ops h
    exact ⟨as, by simpa using has⟩
  · intro t2 ops h
    exact enterGo_ok_shape env bs tb [] t2 ops hnd h

/-- Witness for claim C6: entering bindings `[1, 2]` on an empty table in an
environment where acquiring 2 fails rolls back to the empty table, with log
acquire 1 then release 1. -/
theorem resource_enter_contract_witness :
    ([1, 2] : List Nat).Nodup ∧
    (([] : List Nat) = [] ∧ ∃ as : List Nat,
      [ResOp.acquire 1, ResOp.release 1] =
        as.map ResOp.acquire ++ as.reverse.map ResOp.release) :=
  ⟨by decide, (resource_enter_contract env2f [1, 2] [] (by decide)).1 []
    [ResOp.acquire 1, ResOp.release 1] rfl⟩

/-- Claim C7: a resource bound to both the outgoing and the incoming state of the
selected transition, and held when dispatch starts, is never released and
never re-acquired during the dispatch: only the symmetric difference of the
two states' bindings is touched. -/
theorem no_shared_release (env : Env) (m : Model) (inst : Inst)
    (evId : Nat) (p : Int) (t : Transition) (r : Nat)
    (hsel : selectTransition m inst.current evId p = some t)
    (_hcur : r ∈ bindingsOf m inst.current)
    (htgt : r ∈ bindingsOf m t.target)
    (hheld : r ∈ inst.table) :
    ResOp.release r ∉ (dispatch env m inst evId p).ops ∧
    ResOp.acquire r ∉ (dispatch env m inst evId p).ops := by
  have hexops : ∀ op ∈ (exitState env (bindingsOf m inst.current)
      (bindingsOf m t.target) inst.table).2.2,
      ∃ x, op = ResOp.release x ∧ x ∈ (bindingsOf m inst.current).reverse ∧
        x ∉ bindingsOf m t.target :=
    exitGo_ops env (bindingsOf m t.target)
      (bindingsOf m inst.current).reverse inst.table
  have hexrel : ResOp.release r ∉ (exitState env (bindingsOf m inst.current)
      (bindingsOf m t.target) inst.table).2.2 := by
    intro hin
    obtain ⟨x, hx, -, hxt⟩ := hexops _ hin
    cases hx
    exact hxt htgt
  have hexacq : ResOp.acquire r ∉ (exitState env (bindingsOf m inst.current)
      (bindingsOf m t.target) inst.table).2.2 := by
    intro hin
    obtain ⟨x, hx, -, -⟩ := hexops _ hin
    cases hx
  have hkeep : r ∈ (exitState env (bindingsOf m inst.current)
      (bindingsOf m t.target) inst.table).1 :=
    exitGo_keeps_shared env (bindingsOf m t.target) r
      (bindingsOf m inst.current).reverse inst.table hheld htgt
  have hshared : ResOp.acquire r ∉ entryOps (enterState env
        (bindingsOf m t.target)
        (exitState env (bindingsOf m inst.current) (bindingsOf m t.target)
          inst.table).1) ∧
      ResOp.release r ∉ entryOps (enterState env (bindingsOf m t.target)
        (exitState env (bindingsOf m inst.current) (bindingsOf m t.target)
          inst.table).1) :=
    enterGo_shared_ops env r (bindingsOf m t.target)
      (exitState env (bindingsOf m inst.current) (bindingsOf m t.target)
        inst.table).1 [] hkeep (by simp)
  cases hact : actionPasses env t p with
  | false =>
    have hops : (dispatch env m inst evId p).ops =
        (exitState env (bindingsOf m inst.current) (bindingsOf m t.target)
          inst.table).2.2 := by
      simp [dispatch, hsel, hact]
    rw [hops]
    exact ⟨hexrel, hexacq⟩
  | true =>
    cases hent : enterState env (bindingsOf m t.target)
        (exitState env (bindingsOf m inst.current) (bindingsOf m t.target)
          inst.table).1 with
    | ok res =>
      have hops : (dispatch env m inst evId p).ops =
          (exitState env (bindingsOf m inst.current) (bindingsOf m t.target)
            inst.table).2.2 ++ res.2 := by
        simp [dispatch, hsel, hact, hent]
      rw [hent] at hshared
      simp only [entryOps] at hshared
      rw [hops]
      constructor
      · intro hin
        rcases List.mem_append.1 hin with h1 | h2
        · exact hexrel h1
        · exact hshared.2 h2
      · intro hin
        rcases List.mem_append.1 hin with h1 | h2
        · exact hexacq h1
        · exact hshared.1 h2
    | error res =>
      have hops : (dispatch env m inst evId p).ops =
          (exitState env (bindingsOf m inst.current) (bindingsOf m t.target)
            inst.table).2.2 ++ res.2 := by
        simp [dispatch, hsel, hact, hent]
      rw [hent] at hshared
      simp only [entryOps] at hshared
      rw [hops]
      constructor
      · intro hin
        rcases List.mem_append.1 hin with h1 | h2
        · exact hexrel h1
        · exact hshared.2 h2
      · intro hin
        rcases List.mem_append.1 hin with h1 | h2
        · exact hexacq h1
        · exact hshared.1 h2

/-- Witness for claim C7: on the shared-resource machine, neither leg of A→B→A
releases or re-acquires the shared resource 7. -/
theorem no_shared_release_witness :
    (ResOp.release 7 ∉ (dispatch envAll scShared ⟨0, [7]⟩ 30 0).ops ∧
      ResOp.acquire 7 ∉ (dispatch envAll scShared ⟨0, [7]⟩ 30 0).ops) ∧
    (ResOp.release 7 ∉ (dispatch envAll scShared ⟨1, [7, 8]⟩ 31 0).ops ∧
      ResOp.acquire 7 ∉ (dispatch envAll scShared ⟨1, [7, 8]⟩ 31 0).ops) :=
  ⟨no_shared_release envAll scShared ⟨0, [7]⟩ 30 0 ⟨0, 30, none, none, 1⟩ 7
     rfl (by decide) (by decide) (by decide),
   no_shared_release envAll scShared ⟨1, [7, 8]⟩ 31 0 ⟨1, 31, none, none, 0⟩ 7
     rfl (by decide) (by decide) (by decide)⟩

/-- Claim C8: candidate transitions are evaluated in the Model's declaration order
and the first whose guard passes (or that has no guard) is the one
selected: whenever selection succeeds, the chosen transition passes its
guard and every candidate declared before it fails its guard. -/
theorem dispatch_first_match (m : Model) (cur ev : Nat) (p : Int)
    (t : Transition) (h : selectTransition m cur ev p = some t) :
    guardPasses p t = true ∧
    ∃ l1 l2, candidates m cur ev = l1 ++ t :: l2 ∧
      ∀ u ∈ l1, guardPasses p u = false :=
  find?_first (guardPasses p) (candidates m cur ev) t h

/-- Witness for claim C8: scenario 3 — guards `x>0` and `x<=0` declared in that order;
payload 5 selects the first transition (with the first-match property), and
payload −1 selects the second. -/
theorem dispatch_first_match_witness :
    (guardPasses 5 ⟨0, 20, some (.gt 0), none, 1⟩ = true ∧
      ∃ l1 l2, candidates sc3 0 20 =
          l1 ++ (⟨0, 20, some (.gt 0), none, 1⟩ : Transition) :: l2 ∧
        ∀ u ∈ l1, guardPasses 5 u = false) ∧
    selectTransition sc3 0 20 (-1) = some ⟨0, 20, some (.le 0), none, 2⟩ :=
  ⟨dispatch_first_match sc3 0 20 5 ⟨0, 20, some (.gt 0), none, 1⟩ rfl, rfl⟩

/-- Claim C9: for a structurally well-formed Model (checks (a) and (b) of §4.1
pass), if some pair of declared transitions competes on the same source and
event with guards that are not mutually exclusive — both absent, overlapping
or always-true — then `validate` returns an `AmbiguousTransition` error,
and if every competing pair is mutually exclusive then `validate`
succeeds. -/
theorem validator_ambiguity (m : Model)
    (hok : ∀ t ∈ m.transitions,
      t.source ∈ stateIds m ∧ t.target ∈ stateIds m)
    (hinit : m.initial ∈ stateIds m) :
    (¬ m.transitions.Pairwise compatible →
      ∃ s e, validate m = .error (.AmbiguousTransition s e)) ∧
    (m.transitions.Pairwise compatible → ∃ vm, validate m = .ok vm) := by
  have hfind : m.transitions.find?
      (fun t => !(decide (t.source ∈ stateIds m) &&
        decide (t.target ∈ stateIds m))) = none := by
    apply List.find?_eq_none.2
    intro t ht
    simp [(hok t ht).1, (hok t ht).2]
  constructor
  · intro hnp
    cases hamb : findAmbiguity m.transitions with
    | none => exact absurd ((findAmbiguity_eq_none_iff _).1 hamb) hnp
    | some se =>
      refine ⟨se.1, se.2, ?_⟩
      rw [validate, hfind]
      simp only [if_pos hinit, hamb]
  · intro hp
    have hamb := (findAmbiguity_eq_none_iff m.transitions).2 hp
    rw [validate, hfind]
    simp only [if_pos hinit, hamb]
    exact ⟨_, rfl⟩

/-- Witness for claim C9: the model with two guardless transitions competing on
(source 0, event 5) is rejected as ambiguous, while scenario 3's mutually
exclusive guards `x>0` / `x≤0` are accepted. -/
theorem validator_ambiguity_witness :
    (∃ s e, validate scAmbiguous = .error (.AmbiguousTransition s e)) ∧
    (∃ vm, validate sc3 = .ok vm) :=
  ⟨(validator_ambiguity scAmbiguous (by decide) (by decide)).1
    (fun h => ((List.pairwise_cons.1 h).1 ⟨0, 5, none, none, 1⟩
      (by simp [scAmbiguous]) rfl rfl) ⟨0, rfl, rfl⟩),
   (validator_ambiguity sc3 (by decide) (by decide)).2
    (by
      refine List.Pairwise.cons ?_ (List.Pairwise.cons ?_ List.Pairwise.nil)
      · intro u hu
        have hu' : u = ⟨0, 20, some (.le 0), none, 2⟩ := by
          simpa [sc3] using hu
        subst hu'
        rintro - - ⟨x, h1, h2⟩
        simp only [guardHolds, Guard.eval, decide_eq_true_eq] at h1 h2
        omega
      · intro u hu
        simp [sc3] at hu)⟩

/-- Claim C10: validation is pure — a successful validation embeds the input Model
unchanged in the `ValidatedModel`, and two validations of the same Model
yield an identical `ValidatedModel` structure and identical warning sets. -/
theorem validate_pure (m : Model) (vm vm' : ValidatedModel)
    (h : validate m = .ok vm) (h' : validate m = .ok vm') :
    vm.model = m ∧ vm = vm' ∧ vm.warnings = vm'.warnings := by
  have hvm : vm = vm' := Except.ok.inj (h.symm.trans h')
  refine ⟨?_, hvm, by rw [hvm]⟩
  rw [validate] at h
  cases heq : m.transitions.find?
      (fun t => !(decide (t.source ∈ stateIds m) &&
        decide (t.target ∈ stateIds m))) with
  | some t => rw [heq] at h; cases h
  | none =>
    rw [heq] at h
    by_cases hi : m.initial ∈ stateIds m
    · rw [if_pos hi] at h
      cases hamb : findAmbiguity m.transitions with
      | some se => rw [hamb] at h; cases h
      | none =>
        rw [hamb] at h
        simp only at h
        cases h
        rfl
    · rw [if_neg hi] at h
      cases h

/-- Witness for claim C10: validating scenario 1's model succeeds with the model
embedded unchanged, and two runs agree structurally and on warnings. -/
theorem validate_pure_witness :
    (⟨sc1, []⟩ : ValidatedModel).model = sc1 ∧
    (⟨sc1, []⟩ : ValidatedModel) = ⟨sc1, []⟩ ∧
    (⟨sc1, []⟩ : ValidatedModel).warnings =
      (⟨sc1, []⟩ : ValidatedModel).warnings :=
  validate_pure sc1 ⟨sc1, []⟩ ⟨sc1, []⟩ rfl rfl

end Gotstate
